import Mathlib

/-
  Verification of matscipy/checkpoint.py (class Checkpoint).

  Shallow embedding of the checkpointing module: the region state machine
  (`checkpoint_id` list of sibling counters plus the `in_checkpointed_region`
  flag), the mixed-radix linear key `_mangled_checkpoint_id`, and the
  `load` / `_flush` / `flush` / `save` protocol against the external store
  (an ase database, modelled as an association list keyed by the linear key).

  Python exceptions are modelled by an `Outcome` type; since exceptions leave
  mutations in place, every operation returns the outcome together with the
  state as it stands when the operation ends (normally or by raising).
-/

namespace Checkpoint

/-- `Checkpoint._max_id` (maximum checkpoint id per depth). -/
def MAX_ID : Nat := 1000

/-- An `ase.Atoms` object: the persisted structure (abstracted to a `Nat`
payload) plus the attached calculator, a live resource that is *not*
persisted by the store. -/
structure Atoms where
  payload : Nat
  calculator : Option Nat
deriving DecidableEq, Repr

/-- A Python value passed positionally to `flush`/`save`: either an
`ase.Atoms` object or some other (opaque, serialisable) value. -/
inductive Value where
  | atoms : Atoms → Value
  | plain : Nat → Value
deriving DecidableEq, Repr

/-- `isinstance(v, ase.Atoms)`. -/
def isAtoms : Value → Bool
  | .atoms _ => true
  | .plain _ => false

/-- The in-memory state of a `Checkpoint` object: `self.checkpoint_id`
(a list of sibling counters) and `self.in_checkpointed_region`. -/
structure ChkState where
  checkpoint_id : List Nat
  in_checkpointed_region : Bool
deriving DecidableEq, Repr

/-- Outcome of an operation: normal return, the `NoCheckpoint` exception, or
a fatal error (`AssertionError`, `IndexError`, `RuntimeError`). -/
inductive Outcome (α : Type) where
  | ok : α → Outcome α
  | noCheckpoint : Outcome α
  | fatal : String → Outcome α
deriving DecidableEq, Repr

/-- Recast a non-`ok` outcome at another result type (used when an exception
propagates out of a sub-operation). -/
def Outcome.asFail {α β : Type} : Outcome α → Outcome β
  | .ok _ => .fatal "unexpected"
  | .noCheckpoint => .noCheckpoint
  | .fatal m => .fatal m

/-- Python `l[-1] += 1`: increment the last element of a list.
`none` models the `IndexError` raised on an empty list. -/
def incLast : List Nat → Option (List Nat)
  | [] => none
  | [x] => some [x + 1]
  | x :: y :: l => (incLast (y :: l)).map (x :: ·)

/-- `Checkpoint._increase_checkpoint_id` (checkpoint.py lines 102-111):
if inside a checkpointed region, push a new trailing `1`; otherwise
increment the last element, asserting it stays `< _max_id`.  On the failed
assert the increment has already happened and the flag has not yet been set,
so the fatal state keeps the incremented path with the old flag. -/
def _increase_checkpoint_id (s : ChkState) : Outcome Unit × ChkState :=
  if s.in_checkpointed_region then
    (.ok (), ⟨s.checkpoint_id ++ [1], true⟩)
  else
    match incLast s.checkpoint_id with
    | none => (.fatal "IndexError", s)
    | some p =>
      match p.getLast? with
      | none => (.fatal "IndexError", ⟨p, s.in_checkpointed_region⟩)
      | some m =>
        if m < MAX_ID then (.ok (), ⟨p, true⟩)
        else (.fatal "AssertionError", ⟨p, s.in_checkpointed_region⟩)

/-- `Checkpoint._decrease_checkpoint_id` (checkpoint.py lines 113-120):
if not inside a checkpointed region, pop the last element and assert the
path stays non-empty; then clear the flag and assert the (new) last element
is `≥ 1`.  The fatal states mirror which mutations had already happened when
the corresponding Python assert fires. -/
def _decrease_checkpoint_id (s : ChkState) : Outcome Unit × ChkState :=
  if !s.in_checkpointed_region then
    match (s.checkpoint_id.dropLast).getLast? with
    | none =>
      -- `assert len(self.checkpoint_id) >= 1` failed after the pop
      (.fatal "AssertionError", ⟨s.checkpoint_id.dropLast, s.in_checkpointed_region⟩)
    | some m =>
      if 1 ≤ m then (.ok (), ⟨s.checkpoint_id.dropLast, false⟩)
      else (.fatal "AssertionError", ⟨s.checkpoint_id.dropLast, false⟩)
  else
    match s.checkpoint_id.getLast? with
    | none => (.fatal "IndexError", ⟨s.checkpoint_id, false⟩)
    | some m =>
      if 1 ≤ m then (.ok (), ⟨s.checkpoint_id, false⟩)
      else (.fatal "AssertionError", ⟨s.checkpoint_id, false⟩)

/-- `Checkpoint._mangled_checkpoint_id` (checkpoint.py lines 122-131):
`reduce(+)` over `map(lambda (i, c): c if i == 0 else _max_id**i * c,
enumerate(checkpoint_id))`, i.e. `path[0] + Σ_{i≥1} path[i]·MAX_ID^i`.
(`reduce` over a non-empty list of naturals equals a left fold from 0;
reachable paths are never empty.) -/
def _mangled_checkpoint_id (p : List Nat) : Nat :=
  (p.enum.map (fun ic => if ic.1 = 0 then ic.2 else MAX_ID ^ ic.1 * ic.2)).foldl (· + ·) 0

/-- The `data` dictionary of a persisted record.  Keys of the Python dict are
partitioned by shape: `checkpoint_atoms_args_index` (reserved), the keys
`_values_<i>` (entry `(i, v)` here), and the remaining named kwargs
(which, coming from Python keyword arguments, are plain identifiers and so
never collide with the reserved patterns). -/
structure CPData where
  checkpoint_atoms_args_index : Int
  values : List (Nat × Value)
  named : List (String × Value)
deriving DecidableEq, Repr

/-- A row of the ase database as written by `_flush`: the Atoms structure
(`db.write(atoms, ...)` persists the structure only; the calculator is a
live resource, reattached by `load`) plus the `data` dictionary. -/
structure DBEntry where
  atoms : Nat
  data : CPData
deriving DecidableEq, Repr

/-- The external store, keyed by the mangled (linear) checkpoint id. -/
abbrev DB := List (Nat × DBEntry)

/-- `db.get(checkpoint_id=k)`: first row whose key is `k`, if any. -/
def dbGet : DB → Nat → Option DBEntry
  | [], _ => none
  | e :: l, k => if e.1 = k then some e.2 else dbGet l k

/-- `del db[dbentry.id]` after a successful `db.get`: remove the first row
with the given key (a no-op when no row matches, mirroring the
`except KeyError: pass`). -/
def dbDelete : DB → Nat → DB
  | [], _ => []
  | e :: l, k => if e.1 = k then l else e :: dbDelete l k

/-- `db.write(atoms, checkpoint_id=k, data=data)`: append a new row. -/
def dbWrite (db : DB) (k : Nat) (e : DBEntry) : DB :=
  db ++ [(k, e)]

/-- Python del of the dict key `_values_<i>`: remove the entry with index `i` (indices
coming from `enumerate` are distinct, so first-match removal is dict
deletion). -/
def delKey : List (Nat × Value) → Nat → List (Nat × Value)
  | [], _ => []
  | e :: l, i => if e.1 = i then l else e :: delKey l i

/-- Membership test and lookup of the dict key `_values_<i>` in `data`. -/
def lookupVal : List (Nat × Value) → Nat → Option Value
  | [], _ => none
  | e :: l, i => if e.1 = i then some e.2 else lookupVal l i

/-- `Checkpoint._flush` (checkpoint.py lines 174-207).  `args` are the
positional values; the Python `**kwargs` are split into the reserved
`atoms` keyword (`kwargs_atoms`) and the remaining named entries.  Builds
`data`, mapping each key `_values_<i>` to `v`, locates the first positional `ase.Atoms`
(else takes the `atoms` keyword, else raises `RuntimeError` *before* any
store access), records `checkpoint_atoms_args_index`, merges the named
kwargs, then delete-and-writes the row at `key`. -/
def _flush (args : List Value) (kwargs_atoms : Option Atoms)
    (kwargs : List (String × Value)) (key : Nat) (db : DB) :
    Outcome Unit × DB :=
  let data0 := args.enum
  match args.findIdx? (fun v => isAtoms v) with
  | some atomsi =>
    match args[atomsi]? with
    | some (.atoms a) =>
      let data : CPData := ⟨Int.ofNat atomsi, delKey data0 atomsi, kwargs⟩
      (.ok (), dbWrite (dbDelete db key) key ⟨a.payload, data⟩)
    | _ =>
      -- unreachable: findIdx? returns an index whose element satisfies isAtoms
      (.fatal "unreachable", db)
  | none =>
    match kwargs_atoms with
    | some a =>
      let data : CPData := ⟨-1, data0, kwargs⟩
      (.ok (), dbWrite (dbDelete db key) key ⟨a.payload, data⟩)
    | none => (.fatal "RuntimeError: No atoms object provided in arguments.", db)

/-- `Checkpoint.flush` (checkpoint.py lines 210-221): reset
`in_checkpointed_region` to `False` (without touching the path), then
`_flush` at the current mangled id. -/
def flush (args : List Value) (kwargs_atoms : Option Atoms)
    (kwargs : List (String × Value)) (s : ChkState) (db : DB) :
    Outcome Unit × ChkState × DB :=
  let s1 : ChkState := ⟨s.checkpoint_id, false⟩
  let r := _flush args kwargs_atoms kwargs (_mangled_checkpoint_id s1.checkpoint_id) db
  (r.1, s1, r.2)

/-- `Checkpoint.save` (checkpoint.py lines 224-230):
`_decrease_checkpoint_id()` then `_flush(...)`.  A fatal error in either
step propagates with the store untouched by the failed step; the tracker
state is whatever `_decrease_checkpoint_id` left behind. -/
def save (args : List Value) (kwargs_atoms : Option Atoms)
    (kwargs : List (String × Value)) (s : ChkState) (db : DB) :
    Outcome Unit × ChkState × DB :=
  match _decrease_checkpoint_id s with
  | (.ok _, s1) =>
    let r := _flush args kwargs_atoms kwargs (_mangled_checkpoint_id s1.checkpoint_id) db
    (r.1, s1, r.2)
  | (e, s1) => (e.asFail, s1, db)

/-- `dbentry.toatoms()` followed by
`newatoms.set_calculator(atoms.get_calculator())` when a live `atoms`
object was passed to `load`: the persisted structure with the caller's
calculator (or none) attached. -/
def toatoms (e : DBEntry) (ctx : Option Atoms) : Atoms :=
  ⟨e.atoms, Option.bind ctx Atoms.calculator⟩

/-- One step per iteration of the reconstruction loop in `load`
(checkpoint.py lines 153-164): starting at index `i`, keep collecting while
`i == atomsi` (splice in the reconstructed Atoms) or `_values_<i>` is in
`data` (splice in the stored value); stop at the first index that is
neither.  `fuel` only bounds the recursion: each continuing iteration
consumes a distinct index that is either `atomsi` or a key of `values`, so
the loop runs at most `values.length + 1` iterations and any
`fuel ≥ values.length + 2` computes the loop exactly. -/
def decodeLoop (e : DBEntry) (ctx : Option Atoms) : Nat → Nat → List Value
  | _, 0 => []
  | i, fuel + 1 =>
    if Int.ofNat i = e.data.checkpoint_atoms_args_index then
      Value.atoms (toatoms e ctx) :: decodeLoop e ctx (i + 1) fuel
    else
      match lookupVal e.data.values i with
      | some v => v :: decodeLoop e ctx (i + 1) fuel
      | none => []

/-- The full reconstruction loop of `load`, run from index 0. -/
def decodeVals (e : DBEntry) (ctx : Option Atoms) : List Value :=
  decodeLoop e ctx 0 (e.data.values.length + 2)

/-- The Python return shape: `retvals[0]` when exactly one value was
collected, else `tuple(retvals)`. -/
inductive PyRet where
  | single : Value → PyRet
  | tuple : List Value → PyRet
deriving DecidableEq, Repr

def mkRet : List Value → PyRet
  | [v] => .single v
  | l => .tuple l

/-- `Checkpoint.load` (checkpoint.py lines 133-172):
`_increase_checkpoint_id()`, look up the row at the mangled id; on a miss
raise `NoCheckpoint` (the incremented path and the set flag stay in place);
on a hit reconstruct the values, `_decrease_checkpoint_id()`, and return a
single value or a tuple. -/
def load (ctx : Option Atoms) (s : ChkState) (db : DB) :
    Outcome PyRet × ChkState :=
  match _increase_checkpoint_id s with
  | (.ok _, s1) =>
    match dbGet db (_mangled_checkpoint_id s1.checkpoint_id) with
    | none => (.noCheckpoint, s1)
    | some e =>
      let retvals := decodeVals e ctx
      match _decrease_checkpoint_id s1 with
      | (.ok _, s2) => (.ok (mkRet retvals), s2)
      | (err, s2) => (err.asFail, s2)
  | (e, s1) => (e.asFail, s1)

/-- Number of rows of the store carrying a given key. -/
def countKey : DB → Nat → Nat
  | [], _ => 0
  | e :: l, k => (if e.1 = k then 1 else 0) + countKey l k

/-! ### The linear key: a mixed-radix encoding -/

/-- Recursive form of the mixed-radix key:
`linearKey (a :: l) = a + MAX_ID * linearKey l`. -/
def linearKey : List Nat → Nat
  | [] => 0
  | a :: l => a + MAX_ID * linearKey l

lemma enumFrom_key_foldl (p : List Nat) : ∀ (k acc : Nat),
    ((List.enumFrom k p).map (fun ic => MAX_ID ^ ic.1 * ic.2)).foldl (· + ·) acc
      = acc + MAX_ID ^ k * linearKey p := by
  induction p with
  | nil => intro k acc; simp [linearKey]
  | cons a l ih =>
    intro k acc
    rw [show List.enumFrom k (a :: l) = (k, a) :: List.enumFrom (k + 1) l from rfl]
    simp only [List.map_cons, List.foldl_cons, linearKey]
    rw [ih (k + 1)]
    ring

/-- The source's enumerate-map-reduce computes exactly the recursive
mixed-radix key. -/
lemma mangled_eq_linearKey (p : List Nat) :
    _mangled_checkpoint_id p = linearKey p := by
  unfold _mangled_checkpoint_id
  have hmap : p.enum.map (fun ic => if ic.1 = 0 then ic.2 else MAX_ID ^ ic.1 * ic.2)
      = p.enum.map (fun ic => MAX_ID ^ ic.1 * ic.2) := by
    apply List.map_congr_left
    intro ic _
    by_cases h : ic.1 = 0 <;> simp [h]
  rw [hmap, show p.enum = List.enumFrom 0 p from rfl, enumFrom_key_foldl]
  simp

lemma linearKey_injOn : ∀ p q : List Nat,
    (∀ x ∈ p, 1 ≤ x ∧ x < MAX_ID) → (∀ x ∈ q, 1 ≤ x ∧ x < MAX_ID) →
    linearKey p = linearKey q → p = q := by
  intro p
  induction p with
  | nil =>
    intro q _ hq h
    cases q with
    | nil => rfl
    | cons b l =>
      exfalso
      have hb := hq b (List.mem_cons_self b l)
      simp only [linearKey, MAX_ID] at h hb
      omega
  | cons a p ih =>
    intro q hp hq h
    cases q with
    | nil =>
      exfalso
      have ha := hp a (List.mem_cons_self a p)
      simp only [linearKey, MAX_ID] at h ha
      omega
    | cons b l =>
      have ha := hp a (List.mem_cons_self a p)
      have hb := hq b (List.mem_cons_self b l)
      simp only [linearKey, MAX_ID] at h ha hb
      have hab : a = b ∧ linearKey p = linearKey l := by omega
      have hpl : p = l :=
        ih l (fun x hx => hp x (List.mem_cons_of_mem a hx))
          (fun x hx => hq x (List.mem_cons_of_mem b hx)) hab.2
      rw [hab.1, hpl]

/-- C2: for every two distinct RegionPaths whose elements are all positive
and strictly below `MAX_ID` (1000), the linear keys computed by
`_mangled_checkpoint_id` — the mixed-radix encoding
`path[0] + Σ_{i≥1} path[i]·MAX_ID^i` — are distinct, including when the
paths have different lengths. -/
theorem mangled_checkpoint_id_injective (p1 p2 : List Nat)
    (h1 : ∀ x ∈ p1, 1 ≤ x ∧ x < MAX_ID) (h2 : ∀ x ∈ p2, 1 ≤ x ∧ x < MAX_ID)
    (hne : p1 ≠ p2) :
    _mangled_checkpoint_id p1 ≠ _mangled_checkpoint_id p2 := by
  intro h
  rw [mangled_eq_linearKey, mangled_eq_linearKey] at h
  exact hne (linearKey_injOn p1 p2 h1 h2 h)

/-- Witness for C2 at the concrete paths `[1]` and `[1, 1]` (of different
lengths). -/
theorem mangled_checkpoint_id_injective_witness :
    _mangled_checkpoint_id [1] ≠ _mangled_checkpoint_id [1, 1] :=
  mangled_checkpoint_id_injective [1] [1, 1] (by decide) (by decide) (by decide)

/-! ### Nested collapse and sibling increment (concrete runs) -/

/-- C1: nested collapse of the region state machine.  From state
`⟨[1], true⟩` (an open outer region) the inner `Enter` pushes to `[1,1]`;
the inner `save` exits and writes a record at the key of `[1,1]` (1001);
the outer `save` observes the cleared flag, pops back to `[1]`, and writes
at the key of `[1]` (1) — the same key an outer `save` run directly from
`⟨[1], true⟩` with no nested call uses — while the `[1,1]` record stays
separately retrievable. -/
theorem nested_collapse :
    _increase_checkpoint_id ⟨[1], true⟩ = (.ok (), ⟨[1, 1], true⟩) ∧
    save [.atoms ⟨10, none⟩] none [] ⟨[1, 1], true⟩ []
      = (.ok (), ⟨[1, 1], false⟩, [(1001, ⟨10, ⟨0, [], []⟩⟩)]) ∧
    _mangled_checkpoint_id [1, 1] = 1001 ∧
    save [.atoms ⟨20, none⟩] none [] ⟨[1, 1], false⟩ [(1001, ⟨10, ⟨0, [], []⟩⟩)]
      = (.ok (), ⟨[1], false⟩, [(1001, ⟨10, ⟨0, [], []⟩⟩), (1, ⟨20, ⟨0, [], []⟩⟩)]) ∧
    _mangled_checkpoint_id [1] = 1 ∧
    save [.atoms ⟨20, none⟩] none [] ⟨[1], true⟩ []
      = (.ok (), ⟨[1], false⟩, [(1, ⟨20, ⟨0, [], []⟩⟩)]) ∧
    dbGet [(1001, ⟨10, ⟨0, [], []⟩⟩), (1, ⟨20, ⟨0, [], []⟩⟩)] 1001
      = some ⟨10, ⟨0, [], []⟩⟩ := by
  refine ⟨rfl, rfl, rfl, rfl, rfl, rfl, rfl⟩

/-- C5: sibling increment.  From the initial state `⟨[0], false⟩` two
sequential non-nested checkpointed calls — each an `Enter` via a missing
`load` followed by a closing `save` — write their records at the keys of
`[1]` and then `[2]`; the second `Enter` increments the last element to
`[2]` rather than pushing a nested `[1, 1]`. -/
theorem sibling_increment :
    load none ⟨[0], false⟩ [] = (.noCheckpoint, ⟨[1], true⟩) ∧
    save [.atoms ⟨1, none⟩] none [] ⟨[1], true⟩ []
      = (.ok (), ⟨[1], false⟩, [(1, ⟨1, ⟨0, [], []⟩⟩)]) ∧
    load none ⟨[1], false⟩ [(1, ⟨1, ⟨0, [], []⟩⟩)] = (.noCheckpoint, ⟨[2], true⟩) ∧
    save [.atoms ⟨2, none⟩] none [] ⟨[2], true⟩ [(1, ⟨1, ⟨0, [], []⟩⟩)]
      = (.ok (), ⟨[2], false⟩, [(1, ⟨1, ⟨0, [], []⟩⟩), (2, ⟨2, ⟨0, [], []⟩⟩)]) ∧
    _mangled_checkpoint_id [1] = 1 ∧ _mangled_checkpoint_id [2] = 2 := by
  refine ⟨rfl, rfl, rfl, rfl, rfl, rfl⟩

/-! ### Sibling-counter overflow -/

/-- Driver for repeated `Enter()` at a fixed depth: each round resets the
pending-close flag to `false` (the claim's stipulated setup, so the call
increments in place instead of nesting) and calls
`_increase_checkpoint_id`, stopping at the first failure. -/
def enterSteps : Nat → ChkState → Outcome Unit × ChkState
  | 0, s => (.ok (), s)
  | n + 1, s =>
    match _increase_checkpoint_id s with
    | (.ok _, s1) => enterSteps n ⟨s1.checkpoint_id, false⟩
    | r => r

lemma incLast_concat : ∀ (p : List Nat) (k : Nat),
    incLast (p ++ [k]) = some (p ++ [k + 1]) := by
  intro p
  induction p with
  | nil => intro k; rfl
  | cons a p ih =>
    intro k
    rw [show (a :: p) ++ [k] = a :: (p ++ [k]) from rfl]
    cases hp : p ++ [k] with
    | nil => exact absurd hp (by simp)
    | cons y l =>
      rw [show incLast (a :: y :: l) = (incLast (y :: l)).map (a :: ·) from rfl,
          ← hp, ih k]
      simp

lemma increase_concat (p : List Nat) (k : Nat) (h : k + 1 < MAX_ID) :
    _increase_checkpoint_id ⟨p ++ [k], false⟩ = (.ok (), ⟨p ++ [k + 1], true⟩) := by
  unfold _increase_checkpoint_id
  simp [incLast_concat, List.getLast?_concat, h]

lemma increase_concat_overflow (p : List Nat) (k : Nat) (h : ¬ k + 1 < MAX_ID) :
    _increase_checkpoint_id ⟨p ++ [k], false⟩
      = (.fatal "AssertionError", ⟨p ++ [k + 1], false⟩) := by
  unfold _increase_checkpoint_id
  simp [incLast_concat, List.getLast?_concat, h]

lemma enterSteps_ok (n : Nat) : ∀ (p : List Nat) (k : Nat), k + n < MAX_ID →
    enterSteps n ⟨p ++ [k], false⟩ = (.ok (), ⟨p ++ [k + n], false⟩) := by
  induction n with
  | zero => intro p k _; rfl
  | succ n ih =>
    intro p k h
    rw [show enterSteps (n + 1) ⟨p ++ [k], false⟩
          = (match _increase_checkpoint_id ⟨p ++ [k], false⟩ with
             | (.ok _, s1) => enterSteps n ⟨s1.checkpoint_id, false⟩
             | r => r) from rfl,
        increase_concat p k (by omega)]
    rw [show (match ((Outcome.ok (), (⟨p ++ [k + 1], true⟩ : ChkState))) with
             | (.ok _, s1) => enterSteps n ⟨s1.checkpoint_id, false⟩
             | r => r) = enterSteps n ⟨p ++ [k + 1], false⟩ from rfl]
    rw [ih p (k + 1) (by omega)]
    rw [show k + 1 + n = k + (n + 1) from by omega]

lemma enterSteps_overflow (n : Nat) : ∀ (p : List Nat) (k : Nat), k + n + 1 = MAX_ID →
    enterSteps (n + 1) ⟨p ++ [k], false⟩
      = (.fatal "AssertionError", ⟨p ++ [MAX_ID], false⟩) := by
  induction n with
  | zero =>
    intro p k h
    rw [show enterSteps 1 ⟨p ++ [k], false⟩
          = (match _increase_checkpoint_id ⟨p ++ [k], false⟩ with
             | (.ok _, s1) => enterSteps 0 ⟨s1.checkpoint_id, false⟩
             | r => r) from rfl,
        increase_concat_overflow p k (by omega)]
    rw [show k + 1 = MAX_ID from by omega]
  | succ n ih =>
    intro p k h
    rw [show enterSteps (n + 1 + 1) ⟨p ++ [k], false⟩
          = (match _increase_checkpoint_id ⟨p ++ [k], false⟩ with
             | (.ok _, s1) => enterSteps (n + 1) ⟨s1.checkpoint_id, false⟩
             | r => r) from rfl,
        increase_concat p k (by omega)]
    exact ih p (k + 1) (by omega)

/-- C7: sibling-counter overflow.  With the pending-close flag false before
each call (so `Enter` increments the last path element in place), starting
from a last element of `0` at any fixed depth, the first `MAX_ID - 1`
`Enter()` calls succeed, and the `MAX_ID`-th call fails fatally because the
incremented element must stay strictly below `MAX_ID`. -/
theorem sibling_counter_overflow (p : List Nat) :
    enterSteps (MAX_ID - 1) ⟨p ++ [0], false⟩ = (.ok (), ⟨p ++ [MAX_ID - 1], false⟩) ∧
    (enterSteps MAX_ID ⟨p ++ [0], false⟩).1 = .fatal "AssertionError" := by
  constructor
  · have h := enterSteps_ok (MAX_ID - 1) p 0 (by norm_num [MAX_ID])
    simpa using h
  · have h := enterSteps_overflow (MAX_ID - 1) p 0 (by norm_num [MAX_ID])
    rw [show MAX_ID - 1 + 1 = MAX_ID from by norm_num [MAX_ID]] at h
    rw [h]

/-! ### Error handling on writes -/

/-- `_decrease_checkpoint_id` either succeeds or fails fatally; it never
raises `NoCheckpoint`. -/
lemma decrease_not_noCheckpoint (s : ChkState) :
    (_decrease_checkpoint_id s).1 ≠ Outcome.noCheckpoint := by
  unfold _decrease_checkpoint_id
  split
  · split
    · simp
    · split <;> simp
  · split
    · simp
    · split <;> simp

/-- A successful `_decrease_checkpoint_id` leaves the flag cleared. -/
lemma decrease_ok_flag (s s1 : ChkState)
    (h : _decrease_checkpoint_id s = (.ok (), s1)) :
    s1.in_checkpointed_region = false := by
  unfold _decrease_checkpoint_id at h
  split at h
  · split at h
    · simp at h
    · split at h
      · cases h; rfl
      · simp at h
  · split at h
    · simp at h
    · split at h
      · cases h; rfl
      · simp at h

/-- With no positional `ase.Atoms` and no `atoms` keyword, `_flush` raises
`RuntimeError` before any store access, leaving the store untouched. -/
lemma flush_no_payload (args : List Value) (kwargs : List (String × Value))
    (key : Nat) (db : DB) (hno : args.findIdx? (fun v => isAtoms v) = none) :
    _flush args none kwargs key db
      = (.fatal "RuntimeError: No atoms object provided in arguments.", db) := by
  unfold _flush
  rw [hno]

/-- C8: when a write (`flush` or `save`) finds no positional structured
payload and none was supplied under the reserved `atoms` keyword, the
operation fails fatally and aborts with no partial write: the store is
returned unchanged — no record at the current key is deleted or written. -/
theorem missing_payload_aborts (args : List Value) (kwargs : List (String × Value))
    (s : ChkState) (db : DB)
    (hno : args.findIdx? (fun v => isAtoms v) = none) :
    (flush args none kwargs s db).1
        = .fatal "RuntimeError: No atoms object provided in arguments." ∧
    (flush args none kwargs s db).2.2 = db ∧
    (∃ m, (save args none kwargs s db).1 = .fatal m) ∧
    (save args none kwargs s db).2.2 = db := by
  refine ⟨?_, ?_, ?_, ?_⟩
  · simp [flush, flush_no_payload args kwargs _ db hno]
  · simp [flush, flush_no_payload args kwargs _ db hno]
  all_goals {
    unfold save
    rcases hd : _decrease_checkpoint_id s with ⟨o, s1⟩
    cases o with
    | ok u =>
      cases u
      simp [flush_no_payload args kwargs _ db hno]
    | noCheckpoint => exact absurd (by rw [hd]) (decrease_not_noCheckpoint s)
    | fatal m => simp [Outcome.asFail]
  }

/-- Witness for C8 at a concrete input: one plain positional value, no
`atoms` keyword, a store holding an unrelated record. -/
theorem missing_payload_aborts_witness :
    (flush [.plain 1] none [] ⟨[1], true⟩ [(7, ⟨0, ⟨0, [], []⟩⟩)]).1
        = .fatal "RuntimeError: No atoms object provided in arguments." ∧
    (flush [.plain 1] none [] ⟨[1], true⟩ [(7, ⟨0, ⟨0, [], []⟩⟩)]).2.2
        = [(7, ⟨0, ⟨0, [], []⟩⟩)] ∧
    (∃ m, (save [.plain 1] none [] ⟨[1], true⟩ [(7, ⟨0, ⟨0, [], []⟩⟩)]).1 = .fatal m) ∧
    (save [.plain 1] none [] ⟨[1], true⟩ [(7, ⟨0, ⟨0, [], []⟩⟩)]).2.2
        = [(7, ⟨0, ⟨0, [], []⟩⟩)] :=
  missing_payload_aborts [.plain 1] [] ⟨[1], true⟩ [(7, ⟨0, ⟨0, [], []⟩⟩)] (by decide)

/-- C9: `save` mutates the region tracker before touching the store: the
`Exit` runs first, so the resulting tracker state is the post-`Exit` state
`s1` (flag cleared, a nested level possibly popped) for *every* outcome of
the encode-and-write step; in particular when encoding fails for a missing
payload, the operation fails fatally with the region already closed and no
record persisted, and nothing is restored. -/
theorem save_exits_before_write (args : List Value) (kwargs_atoms : Option Atoms)
    (kwargs : List (String × Value)) (s s1 : ChkState) (db : DB)
    (hdec : _decrease_checkpoint_id s = (.ok (), s1)) :
    (save args kwargs_atoms kwargs s db).2.1 = s1 ∧
    s1.in_checkpointed_region = false ∧
    (args.findIdx? (fun v => isAtoms v) = none → kwargs_atoms = none →
      save args kwargs_atoms kwargs s db
        = (.fatal "RuntimeError: No atoms object provided in arguments.", s1, db)) := by
  refine ⟨?_, decrease_ok_flag s s1 hdec, ?_⟩
  · unfold save
    rw [hdec]
  · intro hno hkw
    subst hkw
    unfold save
    rw [hdec]
    simp [flush_no_payload args kwargs _ db hno]

/-- Witness for C9 at a concrete input: `save` from `⟨[1, 1], false⟩` (the
`Exit` pops the nested level) with a payload-free argument list. -/
theorem save_exits_before_write_witness :
    (save [.plain 5] none [] ⟨[1, 1], false⟩ []).2.1 = ⟨[1], false⟩ ∧
    (⟨[1], false⟩ : ChkState).in_checkpointed_region = false ∧
    (([Value.plain 5].findIdx? (fun v => isAtoms v) = none →
      (none : Option Atoms) = none →
      save [.plain 5] none [] ⟨[1, 1], false⟩ []
        = (.fatal "RuntimeError: No atoms object provided in arguments.",
           ⟨[1], false⟩, []))) :=
  save_exits_before_write [.plain 5] none [] ⟨[1, 1], false⟩ ⟨[1], false⟩ [] (by decide)

/-! ### Store lemmas: delete-then-write -/

lemma dbGet_none_of_countKey_zero : ∀ (db : DB) (k : Nat),
    countKey db k = 0 → dbGet db k = none := by
  intro db k
  induction db with
  | nil => intro _; rfl
  | cons e l ih =>
    intro h
    rw [show countKey (e :: l) k = (if e.1 = k then 1 else 0) + countKey l k from rfl] at h
    rw [show dbGet (e :: l) k = if e.1 = k then some e.2 else dbGet l k from rfl]
    by_cases he : e.1 = k
    · rw [if_pos he] at h; omega
    · rw [if_neg he] at h ⊢; exact ih (by omega)

lemma countKey_delete_of_le_one : ∀ (db : DB) (k : Nat),
    countKey db k ≤ 1 → countKey (dbDelete db k) k = 0 := by
  intro db k
  induction db with
  | nil => intro _; rfl
  | cons e l ih =>
    intro h
    rw [show countKey (e :: l) k = (if e.1 = k then 1 else 0) + countKey l k from rfl] at h
    rw [show dbDelete (e :: l) k = if e.1 = k then l else e :: dbDelete l k from rfl]
    by_cases he : e.1 = k
    · rw [if_pos he] at h ⊢; omega
    · rw [if_neg he] at h ⊢
      rw [show countKey (e :: dbDelete l k) k
            = (if e.1 = k then 1 else 0) + countKey (dbDelete l k) k from rfl,
          if_neg he, ih (by omega)]

lemma dbGet_append_of_none (db1 db2 : DB) (k : Nat)
    (h : dbGet db1 k = none) : dbGet (db1 ++ db2) k = dbGet db2 k := by
  induction db1 with
  | nil => rfl
  | cons e l ih =>
    rw [show dbGet (e :: l) k = if e.1 = k then some e.2 else dbGet l k from rfl] at h
    rw [show (e :: l) ++ db2 = e :: (l ++ db2) from rfl,
        show dbGet (e :: (l ++ db2)) k = if e.1 = k then some e.2 else dbGet (l ++ db2) k from rfl]
    by_cases he : e.1 = k
    · rw [if_pos he] at h; exact absurd h (by simp)
    · rw [if_neg he] at h ⊢; exact ih h

/-- After a delete-then-write at `k` (store holding at most one row at `k`),
the lookup at `k` returns the freshly written row. -/
lemma dbGet_write_self (db : DB) (k : Nat) (e : DBEntry)
    (h : countKey db k ≤ 1) :
    dbGet (dbWrite (dbDelete db k) k e) k = some e := by
  unfold dbWrite
  rw [dbGet_append_of_none _ _ _
        (dbGet_none_of_countKey_zero _ _ (countKey_delete_of_le_one db k h))]
  simp [dbGet]

lemma countKey_append (db1 db2 : DB) (k : Nat) :
    countKey (db1 ++ db2) k = countKey db1 k + countKey db2 k := by
  induction db1 with
  | nil => simp [countKey]
  | cons a l ih =>
    rw [show (a :: l) ++ db2 = a :: (l ++ db2) from rfl]
    rw [show countKey (a :: (l ++ db2)) k
          = (if a.1 = k then 1 else 0) + countKey (l ++ db2) k from rfl,
        show countKey (a :: l) k = (if a.1 = k then 1 else 0) + countKey l k from rfl,
        ih]
    omega

/-- After a delete-then-write at `k` (store holding at most one row at `k`),
exactly one row at `k` remains. -/
lemma countKey_write_self (db : DB) (k : Nat) (e : DBEntry)
    (h : countKey db k ≤ 1) :
    countKey (dbWrite (dbDelete db k) k e) k = 1 := by
  unfold dbWrite
  rw [countKey_append, countKey_delete_of_le_one db k h]
  simp [countKey]

lemma dbGet_delete_ne (db : DB) (k k' : Nat) (h : k' ≠ k) :
    dbGet (dbDelete db k) k' = dbGet db k' := by
  induction db with
  | nil => rfl
  | cons e l ih =>
    rw [show dbDelete (e :: l) k = if e.1 = k then l else e :: dbDelete l k from rfl,
        show dbGet (e :: l) k' = if e.1 = k' then some e.2 else dbGet l k' from rfl]
    by_cases he : e.1 = k
    · rw [if_pos he, if_neg (by rw [he]; exact fun hh => h hh.symm)]
    · rw [if_neg he,
          show dbGet (e :: dbDelete l k) k'
            = if e.1 = k' then some e.2 else dbGet (dbDelete l k) k' from rfl, ih]

lemma dbGet_append_single_ne (db : DB) (k k' : Nat) (e : DBEntry) (h : k' ≠ k) :
    dbGet (db ++ [(k, e)]) k' = dbGet db k' := by
  induction db with
  | nil =>
    have hk : ¬ k = k' := fun hh => h hh.symm
    simp [dbGet, hk]
  | cons a l ih =>
    rw [show (a :: l) ++ [(k, e)] = a :: (l ++ [(k, e)]) from rfl,
        show dbGet (a :: (l ++ [(k, e)])) k'
          = if a.1 = k' then some a.2 else dbGet (l ++ [(k, e)]) k' from rfl,
        show dbGet (a :: l) k' = if a.1 = k' then some a.2 else dbGet l k' from rfl, ih]

/-- A delete-then-write at `k` leaves every other key's lookup unchanged. -/
lemma dbGet_write_other (db : DB) (k k' : Nat) (e : DBEntry) (h : k' ≠ k) :
    dbGet (dbWrite (dbDelete db k) k e) k' = dbGet db k' := by
  unfold dbWrite
  rw [dbGet_append_single_ne _ _ _ _ h, dbGet_delete_ne _ _ _ h]

/-! ### Record decoding: the reconstruction loop of `load` -/

lemma lookupVal_enumFrom : ∀ (l : List Value) (k i : Nat),
    lookupVal (List.enumFrom k l) i = if i < k then none else l[i - k]? := by
  intro l
  induction l with
  | nil =>
    intro k i
    rw [show List.enumFrom k ([] : List Value) = [] from rfl]
    rw [show lookupVal [] i = none from rfl]
    split <;> simp
  | cons a l ih =>
    intro k i
    rw [show List.enumFrom k (a :: l) = (k, a) :: List.enumFrom (k + 1) l from rfl]
    rw [show lookupVal ((k, a) :: List.enumFrom (k + 1) l) i
          = if k = i then some a else lookupVal (List.enumFrom (k + 1) l) i from rfl]
    by_cases hik : k = i
    · subst hik
      rw [if_pos rfl, if_neg (by omega), Nat.sub_self]
      simp
    · rw [if_neg hik, ih (k + 1) i]
      rcases Nat.lt_trichotomy i k with hlt | heq | hgt
      · rw [if_pos (by omega), if_pos hlt]
      · exact absurd heq.symm hik
      · obtain ⟨m, rfl⟩ : ∃ m, i = k + (m + 1) := ⟨i - k - 1, by omega⟩
        rw [if_neg (by omega), if_neg (by omega),
            show k + (m + 1) - k = m + 1 from by omega,
            show k + (m + 1) - (k + 1) = m from by omega]
        simp

lemma lookupVal_enum (l : List Value) (i : Nat) : lookupVal l.enum i = l[i]? := by
  rw [show l.enum = List.enumFrom 0 l from rfl, lookupVal_enumFrom]
  simp

/-- Deleting one index from a dict leaves the other indices' lookups
unchanged. -/
lemma lookupVal_delKey_ne : ∀ (l : List (Nat × Value)) (i j : Nat), i ≠ j →
    lookupVal (delKey l j) i = lookupVal l i := by
  intro l
  induction l with
  | nil => intro i j _; rfl
  | cons e l ih =>
    intro i j hij
    rw [show delKey (e :: l) j = if e.1 = j then l else e :: delKey l j from rfl,
        show lookupVal (e :: l) i = if e.1 = i then some e.2 else lookupVal l i from rfl]
    by_cases hej : e.1 = j
    · rw [if_pos hej, if_neg (by omega)]
    · rw [if_neg hej,
          show lookupVal (e :: delKey l j) i
            = if e.1 = i then some e.2 else lookupVal (delKey l j) i from rfl,
          ih i j hij]

/-- Deleting index `j` from an enumerated dict (whose indices are distinct)
removes it: the lookup at `j` afterwards misses. -/
lemma lookupVal_delKey_enumFrom_self : ∀ (l : List Value) (k j : Nat),
    lookupVal (delKey (List.enumFrom k l) j) j = none := by
  intro l
  induction l with
  | nil => intro k j; rfl
  | cons a l ih =>
    intro k j
    rw [show List.enumFrom k (a :: l) = (k, a) :: List.enumFrom (k + 1) l from rfl,
        show delKey ((k, a) :: List.enumFrom (k + 1) l) j
          = if k = j then List.enumFrom (k + 1) l
            else (k, a) :: delKey (List.enumFrom (k + 1) l) j from rfl]
    by_cases hkj : k = j
    · rw [if_pos hkj, lookupVal_enumFrom, if_pos (by omega)]
    · rw [if_neg hkj,
          show lookupVal ((k, a) :: delKey (List.enumFrom (k + 1) l) j) j
            = if k = j then some a else lookupVal (delKey (List.enumFrom (k + 1) l) j) j
            from rfl,
          if_neg hkj, ih (k + 1) j]

/-- Deleting an index removes at most one dict entry. -/
lemma length_delKey_ge : ∀ (l : List (Nat × Value)) (j : Nat),
    l.length ≤ (delKey l j).length + 1 := by
  intro l
  induction l with
  | nil => intro j; simp [delKey]
  | cons e l ih =>
    intro j
    rw [show delKey (e :: l) j = if e.1 = j then l else e :: delKey l j from rfl]
    by_cases hej : e.1 = j
    · rw [if_pos hej]; simp
    · rw [if_neg hej]
      have := ih j
      simp only [List.length_cons]
      omega

/-- Characterization of the reconstruction loop: if `out` describes the
value collected at every index `t < n` (the reconstructed Atoms when
`t = atomsi`, the stored `_values_<t>` otherwise) and index `n` is the
first stopping point, the loop from `i ≤ n` with enough fuel returns
exactly `out i, …, out (n-1)`. -/
lemma decodeLoop_eq (e : DBEntry) (ctx : Option Atoms) (out : Nat → Value) (n : Nat)
    (hout : ∀ t, t < n →
      (Int.ofNat t = e.data.checkpoint_atoms_args_index →
        out t = Value.atoms (toatoms e ctx)) ∧
      (Int.ofNat t ≠ e.data.checkpoint_atoms_args_index →
        lookupVal e.data.values t = some (out t)))
    (hn1 : Int.ofNat n ≠ e.data.checkpoint_atoms_args_index)
    (hn2 : lookupVal e.data.values n = none) :
    ∀ (m i fuel : Nat), i + m = n → m + 1 ≤ fuel →
      decodeLoop e ctx i fuel = (List.range m).map (fun t => out (i + t)) := by
  intro m
  induction m with
  | zero =>
    intro i fuel hi hf
    obtain ⟨f, rfl⟩ : ∃ f, fuel = f + 1 := ⟨fuel - 1, by omega⟩
    have hi' : i = n := by omega
    rw [hi']
    rw [show decodeLoop e ctx n (f + 1)
          = (if Int.ofNat n = e.data.checkpoint_atoms_args_index then
              Value.atoms (toatoms e ctx) :: decodeLoop e ctx (n + 1) f
             else
              match lookupVal e.data.values n with
              | some v => v :: decodeLoop e ctx (n + 1) f
              | none => []) from rfl,
        if_neg hn1, hn2]
    rfl
  | succ m ih =>
    intro i fuel hi hf
    obtain ⟨f, rfl⟩ : ∃ f, fuel = f + 1 := ⟨fuel - 1, by omega⟩
    have hlt : i < n := by omega
    have hmap : (List.range (m + 1)).map (fun t => out (i + t))
        = out i :: (List.range m).map (fun t => out (i + 1 + t)) := by
      rw [List.range_succ_eq_map, List.map_cons, List.map_map]
      refine congrArg₂ _ (by rw [Nat.add_zero]) ?_
      apply List.map_congr_left
      intro t _
      show out (i + (t + 1)) = out (i + 1 + t)
      rw [show i + (t + 1) = i + 1 + t from by omega]
    rw [show decodeLoop e ctx i (f + 1)
          = (if Int.ofNat i = e.data.checkpoint_atoms_args_index then
              Value.atoms (toatoms e ctx) :: decodeLoop e ctx (i + 1) f
             else
              match lookupVal e.data.values i with
              | some v => v :: decodeLoop e ctx (i + 1) f
              | none => []) from rfl,
        hmap]
    by_cases hcase : Int.ofNat i = e.data.checkpoint_atoms_args_index
    · rw [if_pos hcase, ih (i + 1) f (by omega) (by omega),
          (hout i hlt).1 hcase]
    · rw [if_neg hcase, (hout i hlt).2 hcase,
          ih (i + 1) f (by omega) (by omega)]

/-- The full reconstruction loop collects `out 0, …, out (n-1)` whenever the
fuel bound covers `n` (which holds for every record `_flush` writes). -/
lemma decodeVals_eq (e : DBEntry) (ctx : Option Atoms) (out : Nat → Value) (n : Nat)
    (hout : ∀ t, t < n →
      (Int.ofNat t = e.data.checkpoint_atoms_args_index →
        out t = Value.atoms (toatoms e ctx)) ∧
      (Int.ofNat t ≠ e.data.checkpoint_atoms_args_index →
        lookupVal e.data.values t = some (out t)))
    (hn1 : Int.ofNat n ≠ e.data.checkpoint_atoms_args_index)
    (hn2 : lookupVal e.data.values n = none)
    (hlen : n ≤ e.data.values.length + 1) :
    decodeVals e ctx = (List.range n).map out := by
  rw [decodeVals,
      decodeLoop_eq e ctx out n hout hn1 hn2 n 0 (e.data.values.length + 2)
        (by omega) (by omega)]
  simp

lemma range_map_getD_self (l : List Value) :
    (List.range l.length).map (fun t => l.getD t (Value.plain 0)) = l := by
  apply List.ext_getElem
  · simp
  · intro i h1 h2
    simp only [List.getElem_map, List.getElem_range]
    rw [List.getD_eq_getElem?_getD, List.getElem?_eq_getElem h2]
    rfl

/-- Decoding the record `_flush` writes when the payload was recognised
positionally at index `j`: the original positional values, with the payload
slot rebuilt from the persisted structure and the caller's calculator. -/
lemma decodeVals_flush_pos (args : List Value) (j : Nat) (A : Atoms)
    (named : List (String × Value)) (ctx : Option Atoms)
    (hj : args[j]? = some (.atoms A)) :
    decodeVals ⟨A.payload, ⟨Int.ofNat j, delKey args.enum j, named⟩⟩ ctx
      = args.set j (.atoms ⟨A.payload, Option.bind ctx Atoms.calculator⟩) := by
  have hjlen : j < args.length := by
    by_contra hge
    rw [List.getElem?_eq_none (by omega)] at hj
    exact absurd hj (by simp)
  have hexplen : (args.set j (.atoms ⟨A.payload, Option.bind ctx Atoms.calculator⟩)).length
      = args.length := List.length_set args j _
  rw [decodeVals_eq _ ctx
      (fun t => (args.set j (.atoms ⟨A.payload, Option.bind ctx Atoms.calculator⟩)).getD t
        (Value.plain 0))
      args.length ?hout ?hn1 ?hn2 ?hlen]
  case hout =>
    intro t ht
    constructor
    · intro hcase
      dsimp only at hcase ⊢
      have htj : t = j := Int.ofNat.inj hcase
      subst htj
      rw [List.getD_eq_getElem?_getD,
          List.getElem?_eq_getElem (by rw [List.length_set]; exact hjlen),
          List.getElem_set_self (by rw [List.length_set]; exact hjlen)]
      rfl
    · intro hcase
      dsimp only at hcase ⊢
      have htj : t ≠ j := fun hh => hcase (by rw [hh])
      show lookupVal (delKey args.enum j) t = _
      rw [lookupVal_delKey_ne args.enum t j htj, lookupVal_enum,
          List.getElem?_eq_getElem ht,
          List.getD_eq_getElem?_getD,
          List.getElem?_eq_getElem (by rw [List.length_set]; exact ht),
          List.getElem_set_ne (fun hh => htj hh.symm)]
      rfl
  case hn1 =>
    intro hcase
    dsimp only at hcase
    exact absurd (Int.ofNat.inj hcase) (by omega)
  case hn2 =>
    show lookupVal (delKey args.enum j) args.length = none
    rw [lookupVal_delKey_ne args.enum args.length j (by omega), lookupVal_enum,
        List.getElem?_eq_none (le_refl _)]
  case hlen =>
    show args.length ≤ (delKey args.enum j).length + 1
    have h1 := length_delKey_ge args.enum j
    have h2 : args.enum.length = args.length := List.enum_length
    omega
  rw [show args.length
        = (args.set j (.atoms ⟨A.payload, Option.bind ctx Atoms.calculator⟩)).length
        from hexplen.symm]
  exact range_map_getD_self _

/-- Decoding the record `_flush` writes when the payload came only through
the reserved `atoms` keyword (`checkpoint_atoms_args_index = -1`): exactly
the positional values, in order — the payload is never spliced in. -/
lemma decodeVals_flush_named (args : List Value) (A : Atoms)
    (named : List (String × Value)) (ctx : Option Atoms) :
    decodeVals ⟨A.payload, ⟨-1, args.enum, named⟩⟩ ctx = args := by
  rw [decodeVals_eq _ ctx (fun t => args.getD t (Value.plain 0))
      args.length ?hout ?hn1 ?hn2 ?hlen]
  case hout =>
    intro t ht
    constructor
    · intro hcase
      have hcase2 : Int.ofNat t = -1 := hcase
      rw [Int.ofNat_eq_natCast] at hcase2
      omega
    · intro _
      dsimp only
      show lookupVal args.enum t = _
      rw [lookupVal_enum, List.getElem?_eq_getElem ht,
          List.getD_eq_getElem?_getD, List.getElem?_eq_getElem ht]
      rfl
  case hn1 =>
    show Int.ofNat args.length ≠ -1
    rw [Int.ofNat_eq_natCast]
    omega
  case hn2 =>
    show lookupVal args.enum args.length = none
    rw [lookupVal_enum, List.getElem?_eq_none (le_refl _)]
  case hlen =>
    show args.length ≤ args.enum.length + 1
    have h2 : args.enum.length = args.length := List.enum_length
    omega
  exact range_map_getD_self args

/-! ### The write path of `_flush` -/

/-- `_flush` with the payload recognised positionally at index `j`:
delete-then-write of the record with `checkpoint_atoms_args_index = j` and
the payload's positional slot removed from the values. -/
lemma _flush_pos (args : List Value) (kwA : Option Atoms)
    (named : List (String × Value)) (key : Nat) (db : DB) (j : Nat) (A : Atoms)
    (hfind : args.findIdx? (fun v => isAtoms v) = some j)
    (hj : args[j]? = some (.atoms A)) :
    _flush args kwA named key db
      = (.ok (), dbWrite (dbDelete db key) key
          ⟨A.payload, ⟨Int.ofNat j, delKey args.enum j, named⟩⟩) := by
  unfold _flush
  rw [hfind]
  simp [hj]

/-- `_flush` with no positional payload but the reserved `atoms` keyword:
delete-then-write of the record with `checkpoint_atoms_args_index = -1` and
all positional values kept. -/
lemma _flush_named (args : List Value) (named : List (String × Value))
    (key : Nat) (db : DB) (A : Atoms)
    (hfind : args.findIdx? (fun v => isAtoms v) = none) :
    _flush args (some A) named key db
      = (.ok (), dbWrite (dbDelete db key) key ⟨A.payload, ⟨-1, args.enum, named⟩⟩) := by
  unfold _flush
  rw [hfind]

/-! ### Interaction of Enter and Exit -/

lemma incLast_concat_form : ∀ (l p : List Nat), incLast l = some p →
    ∃ l2 x, l = l2 ++ [x] ∧ p = l2 ++ [x + 1] := by
  intro l
  induction l with
  | nil => intro p h; exact absurd h (by simp [incLast])
  | cons a l ih =>
    intro p h
    cases l with
    | nil =>
      rw [show incLast [a] = some [a + 1] from rfl] at h
      cases h
      exact ⟨[], a, rfl, rfl⟩
    | cons b l2 =>
      rw [show incLast (a :: b :: l2) = (incLast (b :: l2)).map (a :: ·) from rfl] at h
      cases hq : incLast (b :: l2) with
      | none => rw [hq] at h; cases h
      | some q =>
        rw [hq] at h
        obtain ⟨l3, x, h1, h2⟩ := ih q hq
        refine ⟨a :: l3, x, by rw [show (a :: l3) ++ [x] = a :: (l3 ++ [x]) from rfl, ← h1], ?_⟩
        have hp : p = a :: q := by
          have := h.symm
          simpa using this
        rw [hp, h2]
        rfl

/-- A successful `Enter` sets the flag and leaves a path ending in an
element `≥ 1`. -/
lemma increase_ok_last (s s1 : ChkState)
    (h : _increase_checkpoint_id s = (.ok (), s1)) :
    s1.in_checkpointed_region = true ∧
    ∃ l x, s1.checkpoint_id = l ++ [x] ∧ 1 ≤ x := by
  unfold _increase_checkpoint_id at h
  split at h
  · cases h
    exact ⟨rfl, s.checkpoint_id, 1, rfl, le_refl 1⟩
  · split at h
    · simp at h
    · rename_i p hp
      split at h
      · simp at h
      · split at h
        · cases h
          obtain ⟨l2, x, _, h2⟩ := incLast_concat_form _ _ hp
          exact ⟨rfl, l2, x + 1, h2, by omega⟩
        · simp at h

/-- After a successful `Enter`, the matching `Exit` succeeds without
popping: it just clears the flag. -/
lemma decrease_after_increase (s s1 : ChkState)
    (h : _increase_checkpoint_id s = (.ok (), s1)) :
    _decrease_checkpoint_id s1 = (.ok (), ⟨s1.checkpoint_id, false⟩) := by
  obtain ⟨hflag, l, x, hpath, hx⟩ := increase_ok_last s s1 h
  unfold _decrease_checkpoint_id
  rw [hflag]
  simp only [Bool.not_true, Bool.false_eq_true, if_false]
  rw [hpath, List.getLast?_concat]
  simp [hx]

/-- A `load` that hits: the values are reconstructed and the region is
closed in place (flag cleared, path kept). -/
lemma load_hit (ctx : Option Atoms) (t t1 : ChkState) (db : DB) (e : DBEntry)
    (hinc : _increase_checkpoint_id t = (.ok (), t1))
    (hget : dbGet db (_mangled_checkpoint_id t1.checkpoint_id) = some e) :
    load ctx t db = (.ok (mkRet (decodeVals e ctx)), ⟨t1.checkpoint_id, false⟩) := by
  unfold load
  rw [hinc]
  simp only []
  rw [hget]
  simp only []
  rw [decrease_after_increase t t1 hinc]

/-- A `load` that misses: `NoCheckpoint` with the post-`Enter` state kept. -/
lemma load_miss (ctx : Option Atoms) (t t1 : ChkState) (db : DB)
    (hinc : _increase_checkpoint_id t = (.ok (), t1))
    (hget : dbGet db (_mangled_checkpoint_id t1.checkpoint_id) = none) :
    load ctx t db = (.noCheckpoint, t1) := by
  unfold load
  rw [hinc]
  simp only []
  rw [hget]

lemma set_length_self (l : List Value) (a : Value) : l.set l.length a = l := by
  induction l with
  | nil => rfl
  | cons b l ih => simp [List.set, ih]

/-- C3 counterexample: `save(v1)` immediately followed by `load()` in the
same process does not return `v1`.  The `save` leaves the pending-close
flag cleared, so the following `load`'s `Enter` increments the path to the
next sibling `[2]`; the lookup at key 2 misses and `load` raises
`NoCheckpoint` instead of returning the saved value. -/
theorem save_then_load_counterexample :
    save [.atoms ⟨5, none⟩] none [] ⟨[1], true⟩ []
      = (.ok (), ⟨[1], false⟩, [(1, ⟨5, ⟨0, [], []⟩⟩)]) ∧
    load (some ⟨5, none⟩) ⟨[1], false⟩ [(1, ⟨5, ⟨0, [], []⟩⟩)]
      = (.noCheckpoint, ⟨[2], true⟩) ∧
    (load (some ⟨5, none⟩) ⟨[1], false⟩ [(1, ⟨5, ⟨0, [], []⟩⟩)]).1
      ≠ .ok (mkRet [.atoms ⟨5, none⟩]) := by
  refine ⟨rfl, rfl, by decide⟩

/-- C3 (amended): round trip through the store.  `save(v1, …, vn)` (n ≥ 1,
containing exactly one recognizable payload — positionally at index `j`,
or supplied only under the reserved `atoms` keyword) persists a record
which a `load` whose `Enter` computes the same linear key as the `save`'s
write (e.g. after a process restart replaying the same region path — an
in-process immediately-following `load` instead advances to the next
sibling key) returns as `(v1, …, vn)` in the original order, `v1` alone
when n = 1, the positional payload being the reconstructed persisted copy
with the caller-supplied live calculator reattached when given. -/
theorem save_then_matching_load_roundtrip
    (args : List Value) (j : Nat) (A : Atoms) (kwA ctx : Option Atoms)
    (named : List (String × Value)) (s s1 t t1 : ChkState) (db : DB)
    (hn : 1 ≤ args.length)
    (hcase :
      (args.findIdx? (fun v => isAtoms v) = some j ∧ args[j]? = some (.atoms A) ∧
        (∀ i v, i ≠ j → args[i]? = some v → isAtoms v = false))
      ∨ (args.findIdx? (fun v => isAtoms v) = none ∧ kwA = some A ∧ j = args.length))
    (hdec : _decrease_checkpoint_id s = (.ok (), s1))
    (hcount : countKey db (_mangled_checkpoint_id s1.checkpoint_id) ≤ 1)
    (hinc : _increase_checkpoint_id t = (.ok (), t1))
    (hkey : _mangled_checkpoint_id t1.checkpoint_id
      = _mangled_checkpoint_id s1.checkpoint_id) :
    load ctx t (save args kwA named s db).2.2
      = (.ok (mkRet (args.set j
            (.atoms ⟨A.payload, Option.bind ctx Atoms.calculator⟩))),
         ⟨t1.checkpoint_id, false⟩) := by
  rcases hcase with ⟨hfind, hj, _⟩ | ⟨hfind, hkwA, hjlen⟩
  · have hsave : (save args kwA named s db).2.2
        = dbWrite (dbDelete db (_mangled_checkpoint_id s1.checkpoint_id))
            (_mangled_checkpoint_id s1.checkpoint_id)
            ⟨A.payload, ⟨Int.ofNat j, delKey args.enum j, named⟩⟩ := by
      unfold save
      rw [hdec]
      simp only []
      rw [_flush_pos args kwA named _ db j A hfind hj]
    rw [hsave,
        load_hit ctx t t1 _ _ hinc (by rw [hkey]; exact dbGet_write_self db _ _ hcount),
        decodeVals_flush_pos args j A named ctx hj]
  · subst hkwA
    subst hjlen
    have hsave : (save args (some A) named s db).2.2
        = dbWrite (dbDelete db (_mangled_checkpoint_id s1.checkpoint_id))
            (_mangled_checkpoint_id s1.checkpoint_id)
            ⟨A.payload, ⟨-1, args.enum, named⟩⟩ := by
      unfold save
      rw [hdec]
      simp only []
      rw [_flush_named args named _ db A hfind]
    rw [hsave,
        load_hit ctx t t1 _ _ hinc (by rw [hkey]; exact dbGet_write_self db _ _ hcount),
        decodeVals_flush_named args A named ctx, set_length_self]

/-- Witness for C3's amended round trip: `save` of a payload plus one plain
value from the canonical post-miss state `⟨[1], true⟩`, then a `load` from
a fresh replayed state `⟨[0], false⟩` whose `Enter` computes the same key
1; the caller's live calculator `some 42` is reattached onto the
reconstructed payload. -/
theorem save_then_matching_load_roundtrip_witness :
    load (some ⟨5, some 42⟩) ⟨[0], false⟩
        (save [.atoms ⟨5, some 42⟩, .plain 7] none [] ⟨[1], true⟩ []).2.2
      = (.ok (mkRet ([Value.atoms ⟨5, some 42⟩, Value.plain 7].set 0
            (.atoms ⟨5, Option.bind (some ⟨5, some 42⟩) Atoms.calculator⟩))),
         ⟨[1], false⟩) :=
  save_then_matching_load_roundtrip
    [.atoms ⟨5, some 42⟩, .plain 7] 0 ⟨5, some 42⟩ none (some ⟨5, some 42⟩) []
    ⟨[1], true⟩ ⟨[1], false⟩ ⟨[0], false⟩ ⟨[1], true⟩ []
    (by decide)
    (Or.inl ⟨by decide, by decide, by
      intro i v hi hv
      rcases i with _ | _ | i
      · exact absurd rfl hi
      · have h1 : [Value.atoms ⟨5, some 42⟩, Value.plain 7][1]?
            = some (Value.plain 7) := rfl
        rw [h1] at hv
        rw [(Option.some.inj hv).symm]
        rfl
      · have h2 : [Value.atoms ⟨5, some 42⟩, Value.plain 7][i + 2]?
            = none := rfl
        rw [h2] at hv
        exact absurd hv (by simp)⟩)
    (by decide) (by decide) (by decide) (by decide)

/-- C10: when a record's payload was supplied only via the reserved `atoms`
keyword (so `checkpoint_atoms_args_index = -1`), a `load` of that record
never returns the payload object: it returns exactly the positional values
in order, and when the write had zero positional values it returns the
empty tuple `()` rather than the payload or an error. -/
theorem named_payload_not_returned
    (args : List Value) (A : Atoms) (ctx : Option Atoms)
    (named : List (String × Value)) (s s1 t t1 : ChkState) (db : DB)
    (hfind : args.findIdx? (fun v => isAtoms v) = none)
    (hdec : _decrease_checkpoint_id s = (.ok (), s1))
    (hcount : countKey db (_mangled_checkpoint_id s1.checkpoint_id) ≤ 1)
    (hinc : _increase_checkpoint_id t = (.ok (), t1))
    (hkey : _mangled_checkpoint_id t1.checkpoint_id
      = _mangled_checkpoint_id s1.checkpoint_id) :
    load ctx t (save args (some A) named s db).2.2
      = (.ok (mkRet args), ⟨t1.checkpoint_id, false⟩) ∧
    (args = [] → mkRet args = .tuple []) := by
  constructor
  · have hsave : (save args (some A) named s db).2.2
        = dbWrite (dbDelete db (_mangled_checkpoint_id s1.checkpoint_id))
            (_mangled_checkpoint_id s1.checkpoint_id)
            ⟨A.payload, ⟨-1, args.enum, named⟩⟩ := by
      unfold save
      rw [hdec]
      simp only []
      rw [_flush_named args named _ db A hfind]
    rw [hsave,
        load_hit ctx t t1 _ _ hinc (by rw [hkey]; exact dbGet_write_self db _ _ hcount),
        decodeVals_flush_named args A named ctx]
  · intro h
    subst h
    rfl

/-- Witness for C10: `save` of zero positional values with the payload under
the `atoms` keyword, then a matching `load` — it returns the empty tuple,
not the payload. -/
theorem named_payload_not_returned_witness :
    load none ⟨[0], false⟩ (save [] (some ⟨5, none⟩) [] ⟨[1], true⟩ []).2.2
      = (.ok (mkRet []), ⟨[1], false⟩) ∧
    (([] : List Value) = [] → mkRet [] = .tuple []) :=
  named_payload_not_returned [] ⟨5, none⟩ none [] ⟨[1], true⟩ ⟨[1], false⟩
    ⟨[0], false⟩ ⟨[1], true⟩ []
    (by decide) (by decide) (by decide) (by decide) (by decide)

lemma dbGet_append_left (db1 db2 : DB) (k : Nat) (e : DBEntry)
    (h : dbGet db1 k = some e) : dbGet (db1 ++ db2) k = some e := by
  induction db1 with
  | nil => exact absurd h (by simp [dbGet])
  | cons a l ih =>
    rw [show dbGet (a :: l) k = if a.1 = k then some a.2 else dbGet l k from rfl] at h
    rw [show (a :: l) ++ db2 = a :: (l ++ db2) from rfl,
        show dbGet (a :: (l ++ db2)) k
          = if a.1 = k then some a.2 else dbGet (l ++ db2) k from rfl]
    by_cases ha : a.1 = k
    · rw [if_pos ha] at h ⊢; exact h
    · rw [if_neg ha] at h ⊢; exact ih h

/-- A delete-then-write always leaves a retrievable record at the key. -/
lemma dbGet_write_isSome (db : DB) (k : Nat) (e : DBEntry) :
    (dbGet (dbWrite (dbDelete db k) k e) k).isSome = true := by
  cases hg : dbGet (dbDelete db k) k with
  | none =>
    rw [dbWrite, dbGet_append_of_none _ _ _ hg]
    simp [dbGet]
  | some e2 =>
    rw [dbWrite, dbGet_append_left _ _ _ _ hg]
    rfl

/-- C4: `flush` clears the pending-close flag without mutating the
RegionPath, completely replaces (delete-then-write, not merge) any record
at the current linear key, and does not retract the region.  `flush(x)`
then `flush(y)` in the same open region leaves exactly one record at that
key, and a load of that key — one whose `Enter` computes this key —
returns values equivalent to `y` only, with no residual fields from `x`. -/
theorem flush_overwrite
    (args_x args_y : List Value) (kwAx kwAy ctx : Option Atoms)
    (namedx namedy : List (String × Value)) (jy : Nat) (Ay : Atoms)
    (s t t1 : ChkState) (db : DB)
    (hx : (∃ jx Ax, args_x.findIdx? (fun v => isAtoms v) = some jx ∧
            args_x[jx]? = some (.atoms Ax))
        ∨ (args_x.findIdx? (fun v => isAtoms v) = none ∧ ∃ Ax, kwAx = some Ax))
    (hy : (args_y.findIdx? (fun v => isAtoms v) = some jy ∧
            args_y[jy]? = some (.atoms Ay) ∧
            (∀ i v, i ≠ jy → args_y[i]? = some v → isAtoms v = false))
        ∨ (args_y.findIdx? (fun v => isAtoms v) = none ∧ kwAy = some Ay ∧
            jy = args_y.length))
    (hcount : countKey db (_mangled_checkpoint_id s.checkpoint_id) ≤ 1)
    (hinc : _increase_checkpoint_id t = (.ok (), t1))
    (hkey : _mangled_checkpoint_id t1.checkpoint_id
      = _mangled_checkpoint_id s.checkpoint_id) :
    (flush args_x kwAx namedx s db).2.1 = ⟨s.checkpoint_id, false⟩ ∧
    countKey
      (flush args_y kwAy namedy (flush args_x kwAx namedx s db).2.1
        (flush args_x kwAx namedx s db).2.2).2.2
      (_mangled_checkpoint_id s.checkpoint_id) = 1 ∧
    load ctx t
      (flush args_y kwAy namedy (flush args_x kwAx namedx s db).2.1
        (flush args_x kwAx namedx s db).2.2).2.2
      = (.ok (mkRet (args_y.set jy
            (.atoms ⟨Ay.payload, Option.bind ctx Atoms.calculator⟩))),
         ⟨t1.checkpoint_id, false⟩) := by
  have hdb1 : ∃ Ex, (flush args_x kwAx namedx s db).2.2
      = dbWrite (dbDelete db (_mangled_checkpoint_id s.checkpoint_id))
          (_mangled_checkpoint_id s.checkpoint_id) Ex := by
    rcases hx with ⟨jx, Ax, hfx, hjx⟩ | ⟨hfx, Ax, hkx⟩
    · refine ⟨⟨Ax.payload, ⟨Int.ofNat jx, delKey args_x.enum jx, namedx⟩⟩, ?_⟩
      show (_flush args_x kwAx namedx (_mangled_checkpoint_id s.checkpoint_id) db).2 = _
      rw [_flush_pos args_x kwAx namedx _ db jx Ax hfx hjx]
    · subst hkx
      refine ⟨⟨Ax.payload, ⟨-1, args_x.enum, namedx⟩⟩, ?_⟩
      show (_flush args_x (some Ax) namedx (_mangled_checkpoint_id s.checkpoint_id) db).2 = _
      rw [_flush_named args_x namedx _ db Ax hfx]
  obtain ⟨Ex, hdb1⟩ := hdb1
  have hcount1 : countKey (flush args_x kwAx namedx s db).2.2
      (_mangled_checkpoint_id s.checkpoint_id) = 1 := by
    rw [hdb1]
    exact countKey_write_self db _ Ex hcount
  rcases hy with ⟨hfy, hjy, _⟩ | ⟨hfy, hky, hjylen⟩
  · have hdb2 : (flush args_y kwAy namedy (flush args_x kwAx namedx s db).2.1
        (flush args_x kwAx namedx s db).2.2).2.2
        = dbWrite
            (dbDelete (flush args_x kwAx namedx s db).2.2
              (_mangled_checkpoint_id s.checkpoint_id))
            (_mangled_checkpoint_id s.checkpoint_id)
            ⟨Ay.payload, ⟨Int.ofNat jy, delKey args_y.enum jy, namedy⟩⟩ := by
      show (_flush args_y kwAy namedy (_mangled_checkpoint_id s.checkpoint_id)
        (flush args_x kwAx namedx s db).2.2).2 = _
      rw [_flush_pos args_y kwAy namedy _ _ jy Ay hfy hjy]
    refine ⟨rfl, ?_, ?_⟩
    · rw [hdb2]
      exact countKey_write_self _ _ _ (le_of_eq hcount1)
    · rw [hdb2,
          load_hit ctx t t1 _ _ hinc
            (by rw [hkey]; exact dbGet_write_self _ _ _ (le_of_eq hcount1)),
          decodeVals_flush_pos args_y jy Ay namedy ctx hjy]
  · subst hky
    subst hjylen
    have hdb2 : (flush args_y (some Ay) namedy (flush args_x kwAx namedx s db).2.1
        (flush args_x kwAx namedx s db).2.2).2.2
        = dbWrite
            (dbDelete (flush args_x kwAx namedx s db).2.2
              (_mangled_checkpoint_id s.checkpoint_id))
            (_mangled_checkpoint_id s.checkpoint_id)
            ⟨Ay.payload, ⟨-1, args_y.enum, namedy⟩⟩ := by
      show (_flush args_y (some Ay) namedy (_mangled_checkpoint_id s.checkpoint_id)
        (flush args_x kwAx namedx s db).2.2).2 = _
      rw [_flush_named args_y namedy _ _ Ay hfy]
    refine ⟨rfl, ?_, ?_⟩
    · rw [hdb2]
      exact countKey_write_self _ _ _ (le_of_eq hcount1)
    · rw [hdb2,
          load_hit ctx t t1 _ _ hinc
            (by rw [hkey]; exact dbGet_write_self _ _ _ (le_of_eq hcount1)),
          decodeVals_flush_named args_y Ay namedy ctx, set_length_self]

/-- Witness for C4: `flush(x)` then `flush(y)` with distinct payloads and
distinct plain values in the open region `⟨[1], true⟩`; exactly one record
remains at key 1 and a matching load returns `y` only. -/
theorem flush_overwrite_witness :
    (flush [.atoms ⟨7, none⟩, .plain 3] none [] ⟨[1], true⟩ []).2.1
      = ⟨[1], false⟩ ∧
    countKey
      (flush [.atoms ⟨8, none⟩, .plain 4] none []
        (flush [.atoms ⟨7, none⟩, .plain 3] none [] ⟨[1], true⟩ []).2.1
        (flush [.atoms ⟨7, none⟩, .plain 3] none [] ⟨[1], true⟩ []).2.2).2.2 1 = 1 ∧
    load none ⟨[0], false⟩
      (flush [.atoms ⟨8, none⟩, .plain 4] none []
        (flush [.atoms ⟨7, none⟩, .plain 3] none [] ⟨[1], true⟩ []).2.1
        (flush [.atoms ⟨7, none⟩, .plain 3] none [] ⟨[1], true⟩ []).2.2).2.2
      = (.ok (mkRet ([Value.atoms ⟨8, none⟩, Value.plain 4].set 0
            (.atoms ⟨8, Option.bind none Atoms.calculator⟩))),
         ⟨[1], false⟩) :=
  flush_overwrite [.atoms ⟨7, none⟩, .plain 3] [.atoms ⟨8, none⟩, .plain 4]
    none none none [] [] 0 ⟨8, none⟩ ⟨[1], true⟩ ⟨[0], false⟩ ⟨[1], true⟩ []
    (Or.inl ⟨0, ⟨7, none⟩, by decide, by decide⟩)
    (Or.inl ⟨by decide, by decide, by
      intro i v hi hv
      rcases i with _ | _ | i
      · exact absurd rfl hi
      · have h1 : [Value.atoms ⟨8, none⟩, Value.plain 4][1]?
            = some (Value.plain 4) := rfl
        rw [h1] at hv
        rw [(Option.some.inj hv).symm]
        rfl
      · have h2 : [Value.atoms ⟨8, none⟩, Value.plain 4][i + 2]? = none := rfl
        rw [h2] at hv
        exact absurd hv (by simp)⟩)
    (by decide) (by decide) (by decide)

/-- C6: when `load` finds no record at the current linear key it raises
`NoCheckpoint` and leaves the region open: the path element added or
incremented by the `Enter` and the pending-close flag set to `true` both
stay in place, so a subsequent `flush` or `save` in the same process (with
a recognizable payload) succeeds, keeps the same path, and writes its
record at exactly the key the failed lookup used, leaving all other keys
untouched. -/
theorem load_miss_region_open (ctx : Option Atoms) (s s1 : ChkState) (db : DB)
    (hinc : _increase_checkpoint_id s = (.ok (), s1))
    (hmiss : dbGet db (_mangled_checkpoint_id s1.checkpoint_id) = none) :
    load ctx s db = (.noCheckpoint, s1) ∧
    s1.in_checkpointed_region = true ∧
    (∀ (args : List Value) (kwA : Option Atoms) (named : List (String × Value)),
      ((∃ j A, args.findIdx? (fun v => isAtoms v) = some j ∧
          args[j]? = some (.atoms A))
        ∨ (args.findIdx? (fun v => isAtoms v) = none ∧ ∃ A, kwA = some A)) →
      ((flush args kwA named s1 db).1 = .ok () ∧
       (flush args kwA named s1 db).2.1.checkpoint_id = s1.checkpoint_id ∧
       (dbGet (flush args kwA named s1 db).2.2
          (_mangled_checkpoint_id s1.checkpoint_id)).isSome = true ∧
       (∀ k2, k2 ≠ _mangled_checkpoint_id s1.checkpoint_id →
          dbGet (flush args kwA named s1 db).2.2 k2 = dbGet db k2) ∧
       (save args kwA named s1 db).1 = .ok () ∧
       (save args kwA named s1 db).2.1.checkpoint_id = s1.checkpoint_id ∧
       (dbGet (save args kwA named s1 db).2.2
          (_mangled_checkpoint_id s1.checkpoint_id)).isSome = true ∧
       (∀ k2, k2 ≠ _mangled_checkpoint_id s1.checkpoint_id →
          dbGet (save args kwA named s1 db).2.2 k2 = dbGet db k2))) := by
  refine ⟨load_miss ctx s s1 db hinc hmiss, (increase_ok_last s s1 hinc).1, ?_⟩
  intro args kwA named hpay
  have hflush : ∃ E, _flush args kwA named (_mangled_checkpoint_id s1.checkpoint_id) db
      = (.ok (), dbWrite (dbDelete db (_mangled_checkpoint_id s1.checkpoint_id))
          (_mangled_checkpoint_id s1.checkpoint_id) E) := by
    rcases hpay with ⟨j, A, hf, hj⟩ | ⟨hf, A, hk⟩
    · exact ⟨_, _flush_pos args kwA named _ db j A hf hj⟩
    · subst hk
      exact ⟨_, _flush_named args named _ db A hf⟩
  obtain ⟨E, hflush⟩ := hflush
  have hdecs1 : _decrease_checkpoint_id s1 = (.ok (), ⟨s1.checkpoint_id, false⟩) :=
    decrease_after_increase s s1 hinc
  have hsave : save args kwA named s1 db
      = ((_flush args kwA named (_mangled_checkpoint_id s1.checkpoint_id) db).1,
         (⟨s1.checkpoint_id, false⟩ : ChkState),
         (_flush args kwA named (_mangled_checkpoint_id s1.checkpoint_id) db).2) := by
    unfold save
    rw [hdecs1]
  refine ⟨?_, rfl, ?_, ?_, ?_, ?_, ?_, ?_⟩
  · show (_flush args kwA named (_mangled_checkpoint_id s1.checkpoint_id) db).1 = .ok ()
    rw [hflush]
  · show (dbGet (_flush args kwA named (_mangled_checkpoint_id s1.checkpoint_id) db).2
      (_mangled_checkpoint_id s1.checkpoint_id)).isSome = true
    rw [hflush]
    exact dbGet_write_isSome db _ E
  · intro k2 hk2
    show dbGet (_flush args kwA named (_mangled_checkpoint_id s1.checkpoint_id) db).2 k2
      = dbGet db k2
    rw [hflush]
    exact dbGet_write_other db _ k2 E hk2
  · rw [hsave, hflush]
  · rw [hsave]
  · rw [hsave, hflush]
    exact dbGet_write_isSome db _ E
  · intro k2 hk2
    rw [hsave, hflush]
    exact dbGet_write_other db _ k2 E hk2

/-- Witness for C6: from the initial state, `load` on an empty store misses
at key 1 and leaves `⟨[1], true⟩` in place; a subsequent `save` with a
payload writes at that same key 1. -/
theorem load_miss_region_open_witness :
    load none ⟨[0], false⟩ [] = (.noCheckpoint, ⟨[1], true⟩) ∧
    (⟨[1], true⟩ : ChkState).in_checkpointed_region = true ∧
    (save [.atoms ⟨9, none⟩] none [] ⟨[1], true⟩ []).1 = .ok () ∧
    (dbGet (save [.atoms ⟨9, none⟩] none [] ⟨[1], true⟩ []).2.2
      (_mangled_checkpoint_id [1])).isSome = true := by
  have h := load_miss_region_open none ⟨[0], false⟩ ⟨[1], true⟩ []
    (by decide) (by decide)
  have h3 := h.2.2 [.atoms ⟨9, none⟩] none []
    (Or.inl ⟨0, ⟨9, none⟩, by decide, by decide⟩)
  exact ⟨h.1, h.2.1, h3.2.2.2.2.1, h3.2.2.2.2.2.2.1⟩

end Checkpoint
